import Mathlib

/-!
Shallow embedding of the `finql` calendar core (`src/calendar.rs`) and of the
in-memory record store (`src/memory_handler/transaction_handler.rs`), together
with proofs about the embedded operations.

Dates are embedded as integer day numbers (days since 1970-01-01), the
timeline on which `chrono::NaiveDate` operates: `succ`/`pred` are `+1`/`-1`,
ordering is the integer order, and the weekday of a day number is 7-periodic.
Conversion between day numbers and civil `(year, month, day)` triples uses the
standard Gregorian-calendar algorithms.
-/

namespace Finql

/-- The seven weekdays, mirroring `chrono::Weekday`. -/
inductive Weekday where
  | Mon | Tue | Wed | Thu | Fri | Sat | Sun
deriving DecidableEq, Repr

instance : Fintype Weekday where
  elems := ⟨[Weekday.Mon, Weekday.Tue, Weekday.Wed, Weekday.Thu,
             Weekday.Fri, Weekday.Sat, Weekday.Sun], by decide⟩
  complete := fun x => by cases x <;> decide

/-- Modelled from the spec: the date primitive is an external collaborator
supplying calendar-correct year/month/day arithmetic. Gregorian leap-year
rule. -/
def gregLeap (y : Int) : Bool :=
  (y % 4 = 0 && y % 100 ≠ 0) || y % 400 = 0

/-- Modelled from the spec: number of days in a month of the Gregorian
calendar (only consulted for `1 ≤ m ≤ 12`). -/
def daysInMonth (y m : Int) : Int :=
  if m = 2 then (if gregLeap y then 29 else 28)
  else if m = 4 ∨ m = 6 ∨ m = 9 ∨ m = 11 then 30
  else 31

/-- Modelled from the spec: day number (days since 1970-01-01) of a civil
date, via the standard era-based Gregorian conversion. -/
def daysFromCivil (y m d : Int) : Int :=
  let y1 := if m ≤ 2 then y - 1 else y
  let era := y1 / 400
  let yoe := y1 - era * 400
  let mp := (m + 9) % 12
  let doy := (153 * mp + 2) / 5 + d - 1
  let doe := yoe * 365 + yoe / 4 - yoe / 100 + doy
  era * 146097 + doe - 719468

/-- Modelled from the spec: civil `(year, month, day)` of a day number,
inverse of `daysFromCivil`. -/
def civilFromDays (z : Int) : Int × Int × Int :=
  let z1 := z + 719468
  let era := z1 / 146097
  let doe := z1 - era * 146097
  let yoe := (doe - doe / 1460 + doe / 36524 - doe / 146096) / 365
  let y := yoe + era * 400
  let doy := doe - (365 * yoe + yoe / 4 - yoe / 100)
  let mp := (5 * doy + 2) / 153
  let d := doy - (153 * mp + 2) / 5 + 1
  let m := if mp < 10 then mp + 3 else mp - 9
  (if m ≤ 2 then y + 1 else y, m, d)

/-- Year of a day number (`NaiveDate::year`). -/
def dateYear (z : Int) : Int := (civilFromDays z).1

/-- Day-of-month of a day number (`NaiveDate::day`). -/
def dateDay (z : Int) : Int := (civilFromDays z).2.2

/-- Modelled from the spec: `NaiveDate::from_ymd_opt`, validity-checked
construction of a day number from a civil date. -/
def fromYmdOpt (y m d : Int) : Option Int :=
  if 1 ≤ m ∧ m ≤ 12 ∧ 1 ≤ d ∧ d ≤ daysInMonth y m then some (daysFromCivil y m d)
  else none

/-- Decode a weekday code in `0..6` (Monday = 0) to a `Weekday`. -/
def weekdayOfCode (r : Int) : Weekday :=
  if r = 0 then .Mon else if r = 1 then .Tue else if r = 2 then .Wed
  else if r = 3 then .Thu else if r = 4 then .Fri else if r = 5 then .Sat
  else .Sun

/-- Weekday code of a `Weekday` (Monday = 0, ..., Sunday = 6). -/
def weekdayCode : Weekday → Int
  | .Mon => 0 | .Tue => 1 | .Wed => 2 | .Thu => 3 | .Fri => 4 | .Sat => 5 | .Sun => 6

/-- Modelled from the spec: `NaiveDate::weekday`. Day number 0 (1970-01-01)
was a Thursday; weekdays are 7-periodic along the day-number line. -/
def weekday (z : Int) : Weekday := weekdayOfCode ((z + 3) % 7)

/-- `is_leap_year` from `calendar.rs`: true iff Feb 29 of that year is a valid
date. -/
def is_leap_year (year : Int) : Bool := (fromYmdOpt year 2 29).isSome

/-- `last_day_of_month` from `calendar.rs`: the first day of the following
month (falling back to Jan 1 of the next year when `month + 1` is invalid),
stepped back one day, projected to its day-of-month. -/
def last_day_of_month (year month : Int) : Int :=
  dateDay (((fromYmdOpt year (month + 1) 1).getD (daysFromCivil (year + 1) 1 1)) - 1)

/-- The `NthWeekday` enumeration from `calendar.rs`. -/
inductive NthWeekday where
  | First | Second | Third | Fourth | Last
deriving DecidableEq, Repr

/-- The `Holiday` rule enumeration from `calendar.rs`. Dates are day
numbers. -/
inductive Holiday where
  | WeekDay (w : Weekday)
  | YearlyDay (month day : Int) (first last : Option Int)
  | MovableYearlyDay (month day : Int) (first last : Option Int)
  | SingularDay (date : Int)
  | EasterOffset (offset : Int)
  | MonthWeekday (month : Int) (w : Weekday) (nth : NthWeekday) (first last : Option Int)
deriving DecidableEq

/-- The `Calendar` structure from `calendar.rs`: the computed holiday set and
the configured weekend weekdays. -/
structure Calendar where
  holidays : Finset Int
  weekdays : List Weekday
deriving DecidableEq

/-- `Calendar::calc_first_and_last`: clamp the optional rule bounds into the
build range. -/
def calc_first_and_last (start end_ : Int) (first last : Option Int) : Int × Int :=
  (match first with
   | some year => max start year
   | none => start,
   match last with
   | some year => min end_ year
   | none => end_)

/-- The inclusive year range `first..last+1` iterated by the per-rule loops. -/
def yearList (first last : Int) : List Int :=
  (List.range (last + 1 - first).toNat).map (fun k : Nat => first + (k : Int))

/-- Fueled linear search along the day-number line: step by `step` until
`stop` holds, embedding the `while` loops of `calendar.rs`. `none` models a
loop that does not stop within `fuel` steps. -/
def searchAux (stop : Int → Bool) (step : Int) : Nat → Int → Option Int
  | 0, _ => none
  | fuel + 1, d => if stop d then some d else searchAux stop step fuel (d + step)

/-- The `Holiday::YearlyDay` year loop: insert `(year, month, day)` for each
year; an invalid date is a `from_ymd` panic, modelled as `none`. -/
def yearlyFold (month day : Int) : List Int → Finset Int → Option (Finset Int)
  | [], hs => some hs
  | y :: ys, hs =>
    match fromYmdOpt y month day with
    | none => none
    | some z => yearlyFold month day ys (insert z hs)

/-- The `Holiday::MovableYearlyDay` year loop: shift a Saturday nominal date
by two days and a Sunday one by one day, then probe forward past dates already
in the holiday set, and insert. -/
def movableFold (month day : Int) : List Int → Finset Int → Option (Finset Int)
  | [], hs => some hs
  | y :: ys, hs =>
    match fromYmdOpt y month day with
    | none => none
    | some z =>
      let z1 := match weekday z with
        | .Sat => z + 2
        | .Sun => z + 1
        | _ => z
      let z2 := (searchAux (fun t => decide (t ∉ hs)) 1 (hs.card + 1) z1).getD z1
      movableFold month day ys (insert z2 hs)

/-- Modelled from the spec: the Easter Provider (the external `computus`
crate), a deterministic Gregorian computus valid from 1583 onward; earlier
years fail. -/
def easterGregorian (y : Int) : Option (Int × Int × Int) :=
  if y < 1583 then none
  else
    let a := y % 19
    let b := y / 100
    let c := y % 100
    let d := b / 4
    let e := b % 4
    let f := (b + 8) / 25
    let g := (b - f + 1) / 3
    let h := (19 * a + b - d - g + 15) % 30
    let i := c / 4
    let k := c % 4
    let l := (32 + 2 * e + 2 * i - h - k) % 7
    let m := (a + 11 * h + 22 * l) / 451
    let month := (h + l - 7 * m + 114) / 31
    let day := (h + l - 7 * m + 114) % 31 + 1
    some (y, month, day)

/-- The `Holiday::EasterOffset` year loop: Easter Sunday of each year plus the
signed offset in days. Provider failure (`unwrap` panic) is `none`. -/
def easterFold (offset : Int) : List Int → Finset Int → Option (Finset Int)
  | [], hs => some hs
  | y :: ys, hs =>
    match easterGregorian y with
    | none => none
    | some (ey, em, ed) =>
      match fromYmdOpt ey em ed with
      | none => none
      | some z => easterFold offset ys (insert (z + offset) hs)

/-- The anchor day-of-month chosen by the `Holiday::MonthWeekday` arm:
1/8/15/22 for `First`..`Fourth`, the month's last day for `Last`. -/
def nthAnchorDay (nth : NthWeekday) (year month : Int) : Int :=
  match nth with
  | .First => 1
  | .Second => 8
  | .Third => 15
  | .Fourth => 22
  | .Last => last_day_of_month year month

/-- The scan direction of the `Holiday::MonthWeekday` arm: backward for
`Last`, forward otherwise. -/
def nthStep : NthWeekday → Int
  | .Last => -1
  | _ => 1

/-- The `Holiday::MonthWeekday` year loop: anchor at day-of-month 1/8/15/22 or
the month's last day, then scan by one day (forward, or backward for `Last`)
until the weekday matches, and insert. -/
def monthWeekdayFold (month : Int) (w : Weekday) (nth : NthWeekday) :
    List Int → Finset Int → Option (Finset Int)
  | [], hs => some hs
  | y :: ys, hs =>
    match fromYmdOpt y month (nthAnchorDay nth y month) with
    | none => none
    | some z =>
      let z1 := (searchAux (fun t => decide (weekday t = w)) (nthStep nth) 7 z).getD z
      monthWeekdayFold month w nth ys (insert z1 hs)

/-- One iteration of the rule loop of `Calendar::calc_calendar`: apply a
single `Holiday` rule to the accumulated state. -/
def applyRule (start end_ : Int) (cal : Calendar) : Holiday → Option Calendar
  | .SingularDay date =>
    let year := dateYear date
    if year ≥ start ∧ year ≤ end_ then some { cal with holidays := insert date cal.holidays }
    else some cal
  | .WeekDay w => some { cal with weekdays := cal.weekdays ++ [w] }
  | .YearlyDay month day first last =>
    let fl := calc_first_and_last start end_ first last
    (yearlyFold month day (yearList fl.1 fl.2) cal.holidays).map
      (fun hs => { cal with holidays := hs })
  | .MovableYearlyDay month day first last =>
    let fl := calc_first_and_last start end_ first last
    (movableFold month day (yearList fl.1 fl.2) cal.holidays).map
      (fun hs => { cal with holidays := hs })
  | .EasterOffset offset =>
    (easterFold offset (yearList start end_) cal.holidays).map
      (fun hs => { cal with holidays := hs })
  | .MonthWeekday month w nth first last =>
    let fl := calc_first_and_last start end_ first last
    (monthWeekdayFold month w nth (yearList fl.1 fl.2) cal.holidays).map
      (fun hs => { cal with holidays := hs })

/-- The rule loop of `Calendar::calc_calendar`. -/
def calcCalendarAux (start end_ : Int) : List Holiday → Calendar → Option Calendar
  | [], cal => some cal
  | rule :: rules, cal =>
    match applyRule start end_ cal rule with
    | none => none
    | some cal1 => calcCalendarAux start end_ rules cal1

/-- `Calendar::calc_calendar`: evaluate the rules over `[start, end]` starting
from an empty holiday set and weekend list. A rule evaluation that would
construct an invalid date (a `from_ymd`/`unwrap` panic) yields `none`. -/
def calc_calendar (holiday_rules : List Holiday) (start end_ : Int) : Option Calendar :=
  calcCalendarAux start end_ holiday_rules ⟨∅, []⟩

/-- `Calendar::is_weekend`: the date's weekday occurs in the weekend list. -/
def is_weekend (cal : Calendar) (day : Int) : Bool :=
  decide (weekday day ∈ cal.weekdays)

/-- `Calendar::is_holiday`: membership in the holiday set. -/
def is_holiday (cal : Calendar) (date : Int) : Bool :=
  decide (date ∈ cal.holidays)

/-- `Calendar::is_business_day`. -/
def is_business_day (cal : Calendar) (date : Int) : Bool :=
  !is_weekend cal date && !is_holiday cal date

/-- `Calendar::next_bday`: scan forward from `date + 1` for a business day.
The fuel `7 * (|holidays| + 1)` is enough whenever some weekday is not a
weekend day; `none` models the non-terminating loop. -/
def next_bday (cal : Calendar) (date : Int) : Option Int :=
  searchAux (is_business_day cal) 1 (7 * (cal.holidays.card + 1)) (date + 1)

/-- `Calendar::prev_bday`: scan backward from `date - 1` for a business
day. -/
def prev_bday (cal : Calendar) (date : Int) : Option Int :=
  searchAux (is_business_day cal) (-1) (7 * (cal.holidays.card + 1)) (date - 1)

/-! ## Record store (`src/memory_handler/transaction_handler.rs`) -/

/-- Modelled from the spec: an asset record of the record store; only its
optional integer identifier matters to the handler, the remaining payload is
abstracted into one field. -/
structure Asset where
  id : Option Nat
  payload : Nat
deriving DecidableEq

/-- Modelled from the spec: a transaction record of the record store, as
`Asset`. -/
structure Transaction where
  id : Option Nat
  payload : Nat
deriving DecidableEq

/-- The `DataError` values produced by the in-memory handler. -/
inductive DataError where
  | NotFound (msg : String)
  | UpdateFailed (msg : String)
deriving DecidableEq

/-- Ordered-map insert of a key/value pair, replacing an existing binding for
the key (`BTreeMap::insert`). -/
def mapInsert {α : Type} (k : Nat) (v : α) : List (Nat × α) → List (Nat × α)
  | [] => [(k, v)]
  | (k1, v1) :: rest => if k = k1 then (k, v) :: rest else (k1, v1) :: mapInsert k v rest

/-- `BTreeMap::contains_key`. -/
def mapContains {α : Type} (k : Nat) : List (Nat × α) → Bool
  | [] => false
  | (k1, _) :: rest => k = k1 || mapContains k rest

/-- `BTreeMap::remove` (dropping the returned value). -/
def mapRemove {α : Type} (k : Nat) : List (Nat × α) → List (Nat × α)
  | [] => []
  | (k1, v1) :: rest => if k = k1 then rest else (k1, v1) :: mapRemove k rest

/-- Modelled from the spec: the `InMemoryDB` state, two entity maps and the
two id counters used by the handler in `transaction_handler.rs`. -/
structure InMemoryDB where
  assets : List (Nat × Asset)
  transactions : List (Nat × Transaction)
  next_asset_id : Nat
  next_transaction_id : Nat
deriving DecidableEq

/-- `InMemoryDB::insert_asset`: store a copy of the asset under
`next_asset_id` with its `id` field set. NOTE: as in the source, the counter
incremented afterwards is `next_transaction_id`. -/
def insert_asset (db : InMemoryDB) (asset : Asset) : InMemoryDB × Except DataError Nat :=
  let id := db.next_asset_id
  let asset1 := { asset with id := some id }
  ({ db with assets := mapInsert id asset1 db.assets,
             next_transaction_id := db.next_transaction_id + 1 },
   Except.ok id)

/-- `InMemoryDB::update_asset`. -/
def update_asset (db : InMemoryDB) (asset : Asset) : InMemoryDB × Except DataError Unit :=
  match asset.id with
  | none => (db, Except.error (DataError.UpdateFailed
      "asset has no id yet, can\x27t update new value"))
  | some id =>
    if mapContains id db.assets then
      ({ db with assets := mapInsert id asset db.assets }, Except.ok ())
    else
      (db, Except.error (DataError.NotFound "asset id not found in database"))

/-- `InMemoryDB::delete_asset`. -/
def delete_asset (db : InMemoryDB) (id : Nat) : InMemoryDB × Except DataError Unit :=
  if mapContains id db.assets then
    ({ db with assets := mapRemove id db.assets }, Except.ok ())
  else
    (db, Except.error (DataError.NotFound "asset id not found in database"))

/-- `InMemoryDB::insert_transaction`: store a copy of the transaction under
`next_transaction_id` with its `id` field set, then increment
`next_transaction_id`. -/
def insert_transaction (db : InMemoryDB) (transaction : Transaction) :
    InMemoryDB × Except DataError Nat :=
  let id := db.next_transaction_id
  let transaction1 := { transaction with id := some id }
  ({ db with transactions := mapInsert id transaction1 db.transactions,
             next_transaction_id := db.next_transaction_id + 1 },
   Except.ok id)

/-- `InMemoryDB::update_transaction`. -/
def update_transaction (db : InMemoryDB) (transaction : Transaction) :
    InMemoryDB × Except DataError Unit :=
  match transaction.id with
  | none => (db, Except.error (DataError.UpdateFailed
      "transaction has no id yet, can\x27t update new value"))
  | some id =>
    if mapContains id db.transactions then
      ({ db with transactions := mapInsert id transaction db.transactions }, Except.ok ())
    else
      (db, Except.error (DataError.NotFound "transaction id not found in database"))

/-- `InMemoryDB::delete_transaction`. -/
def delete_transaction (db : InMemoryDB) (id : Nat) : InMemoryDB × Except DataError Unit :=
  if mapContains id db.transactions then
    ({ db with transactions := mapRemove id db.transactions }, Except.ok ())
  else
    (db, Except.error (DataError.NotFound "transaction id not found in database"))

/-! ## Supporting lemmas -/

/-- Correctness of the fueled linear search: if `stop` holds within the fuel,
`searchAux` returns the first position (in search order) where it holds. -/
theorem searchAux_spec (stop : Int → Bool) (step : Int) (fuel : Nat) :
    ∀ d : Int, (∃ k : Nat, k < fuel ∧ stop (d + step * k) = true) →
    ∃ k : Nat, k < fuel ∧ stop (d + step * k) = true ∧
      (∀ j : Nat, j < k → stop (d + step * j) = false) ∧
      searchAux stop step fuel d = some (d + step * k) := by
  induction fuel with
  | zero => intro d h; obtain ⟨k, hk, _⟩ := h; omega
  | succ fuel ih =>
    intro d h
    by_cases hd : stop d = true
    · refine ⟨0, Nat.succ_pos _, by simpa using hd, fun j hj => absurd hj (by omega), ?_⟩
      simp [searchAux, hd]
    · have hd0 : stop d = false := by simpa using hd
      obtain ⟨k, hk, hks⟩ := h
      have hk0 : k ≠ 0 := by
        rintro rfl
        simp only [Nat.cast_zero, mul_zero, add_zero] at hks
        rw [hks] at hd0; cases hd0
      have h2 : ∃ k2 : Nat, k2 < fuel ∧ stop ((d + step) + step * k2) = true := by
        refine ⟨k - 1, by omega, ?_⟩
        have hcast : (d + step) + step * ((k : Int) - 1) = d + step * k := by ring
        rwa [Nat.cast_sub (by omega : 1 ≤ k), Nat.cast_one, hcast]
      obtain ⟨k2, hk2, hstop2, hmin2, heq2⟩ := ih (d + step) h2
      have hshift : ∀ n : Nat, (d + step) + step * n = d + step * (n + 1 : Nat) := by
        intro n; push_cast; ring
      refine ⟨k2 + 1, by omega, ?_, ?_, ?_⟩
      · rw [← hshift]; exact hstop2
      · intro j hj
        cases j with
        | zero => simpa using hd0
        | succ j2 => rw [← hshift]; exact hmin2 j2 (by omega)
      · rw [searchAux, if_neg (by simp [hd0]), heq2, hshift]

/-- Membership in the iterated year range. -/
theorem mem_yearList {y first last : Int} : y ∈ yearList first last ↔ first ≤ y ∧ y ≤ last := by
  simp only [yearList, List.mem_map, List.mem_range]
  constructor
  · rintro ⟨k, hk, rfl⟩; omega
  · intro h; exact ⟨(y - first).toNat, by omega, by omega⟩

/-- A reversed year range is empty. -/
theorem yearList_nil {first last : Int} (h : last < first) : yearList first last = [] := by
  simp [yearList, show (last + 1 - first).toNat = 0 by omega]

/-- The clamped rule range always lies inside `[start, end]`. -/
theorem calc_first_and_last_bounds (start end_ : Int) (first last : Option Int) :
    start ≤ (calc_first_and_last start end_ first last).1 ∧
    (calc_first_and_last start end_ first last).2 ≤ end_ := by
  cases first <;> cases last <;> simp [calc_first_and_last]

theorem weekdayCode_bounds (w : Weekday) : 0 ≤ weekdayCode w ∧ weekdayCode w < 7 := by
  cases w <;> simp [weekdayCode]

theorem weekdayOfCode_eq_iff {r : Int} (h0 : 0 ≤ r) (h7 : r < 7) (w : Weekday) :
    weekdayOfCode r = w ↔ r = weekdayCode w := by
  interval_cases r <;> cases w <;> simp [weekdayOfCode, weekdayCode]

/-- The weekday of a day number, as a residue equation modulo 7. -/
theorem weekday_eq_iff {z : Int} {w : Weekday} :
    weekday z = w ↔ (z + 3) % 7 = weekdayCode w :=
  weekdayOfCode_eq_iff (by omega) (by omega) w

/-- Pigeonhole step: an injective sequence cannot stay inside a finite set for
`card + 1` steps. -/
theorem exists_notMem_of_injective (s : Finset Int) (f : Nat → Int)
    (hf : Function.Injective f) : ∃ j : Nat, j ≤ s.card ∧ f j ∉ s := by
  by_contra hcon
  push_neg at hcon
  have hsub : (Finset.range (s.card + 1)).image f ⊆ s := by
    intro x hx
    obtain ⟨j, hj, rfl⟩ := Finset.mem_image.mp hx
    exact hcon j (Nat.lt_succ_iff.mp (Finset.mem_range.mp hj))
  have hcard := Finset.card_le_card hsub
  rw [Finset.card_image_of_injective _ hf, Finset.card_range] at hcard
  omega

/-- A business day is a non-weekend non-holiday day. -/
theorem is_business_day_eq_true {cal : Calendar} {z : Int} :
    is_business_day cal z = true ↔ weekday z ∉ cal.weekdays ∧ z ∉ cal.holidays := by
  simp [is_business_day, is_weekend, is_holiday]

/-- If some weekday is missing from the weekend list, a business day occurs
within `7 * (|holidays| + 1)` days forward of any day. -/
theorem exists_business_day_forward (cal : Calendar) (w : Weekday)
    (hw : w ∉ cal.weekdays) (d : Int) :
    ∃ k : Nat, k < 7 * (cal.holidays.card + 1) ∧ is_business_day cal (d + 1 * k) = true := by
  have hcw := weekdayCode_bounds w
  set r := (weekdayCode w - (d + 3)) % 7 with hr
  have hinj : Function.Injective (fun j : Nat => d + r + 7 * (j : Int)) := by
    intro a b hab
    simp only at hab
    omega
  obtain ⟨j, hj, hnm⟩ := exists_notMem_of_injective cal.holidays _ hinj
  refine ⟨(r + 7 * (j : Int)).toNat, by omega, ?_⟩
  have hx : d + 1 * (((r + 7 * (j : Int)).toNat : Nat) : Int) = d + r + 7 * (j : Int) := by
    omega
  rw [hx, is_business_day_eq_true]
  have hwd : weekday (d + r + 7 * (j : Int)) = w := weekday_eq_iff.mpr (by omega)
  rw [hwd]
  exact ⟨hw, hnm⟩

/-- Symmetric statement backward. -/
theorem exists_business_day_backward (cal : Calendar) (w : Weekday)
    (hw : w ∉ cal.weekdays) (d : Int) :
    ∃ k : Nat, k < 7 * (cal.holidays.card + 1) ∧
      is_business_day cal (d + (-1) * k) = true := by
  have hcw := weekdayCode_bounds w
  set r := ((d + 3) - weekdayCode w) % 7 with hr
  have hinj : Function.Injective (fun j : Nat => d - r - 7 * (j : Int)) := by
    intro a b hab
    simp only at hab
    omega
  obtain ⟨j, hj, hnm⟩ := exists_notMem_of_injective cal.holidays _ hinj
  refine ⟨(r + 7 * (j : Int)).toNat, by omega, ?_⟩
  have hx : d + (-1) * (((r + 7 * (j : Int)).toNat : Nat) : Int) = d - r - 7 * (j : Int) := by
    omega
  rw [hx, is_business_day_eq_true]
  have hwd : weekday (d - r - 7 * (j : Int)) = w := weekday_eq_iff.mpr (by omega)
  rw [hwd]
  exact ⟨hw, hnm⟩

/-! ## Claim theorems: calendar queries and traversal -/

/-- **C1.** For every calendar and date, `is_business_day` returns true iff
`is_weekend` and `is_holiday` both return false. -/
theorem is_business_day_def (cal : Calendar) (d : Int) :
    is_business_day cal d = (!is_weekend cal d && !is_holiday cal d) := rfl

/-- **C2.** For every calendar whose weekend list misses some weekday and
every date `d`, `next_bday` terminates and returns the least business day
strictly greater than `d`, and `prev_bday` returns the greatest business day
strictly less than `d`. -/
theorem next_prev_bday_spec (cal : Calendar) (w : Weekday) (hw : w ∉ cal.weekdays)
    (d : Int) :
    (∃ r, next_bday cal d = some r ∧ d < r ∧ is_business_day cal r = true ∧
      ∀ e : Int, d < e → e < r → is_business_day cal e = false) ∧
    (∃ r, prev_bday cal d = some r ∧ r < d ∧ is_business_day cal r = true ∧
      ∀ e : Int, r < e → e < d → is_business_day cal e = false) := by
  constructor
  · obtain ⟨k, hk, hstop, hmin, heq⟩ :=
      searchAux_spec (is_business_day cal) 1 (7 * (cal.holidays.card + 1)) (d + 1)
        (exists_business_day_forward cal w hw (d + 1))
    refine ⟨d + 1 + 1 * k, heq, by omega, hstop, ?_⟩
    intro e h1 h2
    have hj : (e - (d + 1)).toNat < k := by omega
    have he : d + 1 + 1 * (((e - (d + 1)).toNat : Nat) : Int) = e := by omega
    rw [← he]
    exact hmin _ hj
  · obtain ⟨k, hk, hstop, hmin, heq⟩ :=
      searchAux_spec (is_business_day cal) (-1) (7 * (cal.holidays.card + 1)) (d - 1)
        (exists_business_day_backward cal w hw (d - 1))
    refine ⟨d - 1 + (-1) * k, heq, by omega, hstop, ?_⟩
    intro e h1 h2
    have hj : (d - 1 - e).toNat < k := by omega
    have he : d - 1 + (-1) * (((d - 1 - e).toNat : Nat) : Int) = e := by omega
    rw [← he]
    exact hmin _ hj

/-- Witness for C2 at the calendar of the `fixed_dates_calendar` test and the
date 2019-11-22. -/
theorem next_prev_bday_spec_witness :
    Weekday.Mon ∉ (Calendar.mk {daysFromCivil 2019 11 20}
      [Weekday.Sat, Weekday.Sun]).weekdays ∧
    ((∃ r, next_bday (Calendar.mk {daysFromCivil 2019 11 20}
          [Weekday.Sat, Weekday.Sun]) (daysFromCivil 2019 11 22) = some r ∧
        daysFromCivil 2019 11 22 < r ∧
        is_business_day (Calendar.mk {daysFromCivil 2019 11 20}
          [Weekday.Sat, Weekday.Sun]) r = true ∧
        ∀ e : Int, daysFromCivil 2019 11 22 < e → e < r →
          is_business_day (Calendar.mk {daysFromCivil 2019 11 20}
            [Weekday.Sat, Weekday.Sun]) e = false) ∧
      (∃ r, prev_bday (Calendar.mk {daysFromCivil 2019 11 20}
          [Weekday.Sat, Weekday.Sun]) (daysFromCivil 2019 11 22) = some r ∧
        r < daysFromCivil 2019 11 22 ∧
        is_business_day (Calendar.mk {daysFromCivil 2019 11 20}
          [Weekday.Sat, Weekday.Sun]) r = true ∧
        ∀ e : Int, r < e → e < daysFromCivil 2019 11 22 →
          is_business_day (Calendar.mk {daysFromCivil 2019 11 20}
            [Weekday.Sat, Weekday.Sun]) e = false)) :=
  ⟨by decide,
   next_prev_bday_spec (Calendar.mk {daysFromCivil 2019 11 20}
     [Weekday.Sat, Weekday.Sun]) Weekday.Mon (by decide) (daysFromCivil 2019 11 22)⟩

/-- **C3.** With the two movable rules Nov 1 then Nov 2 over `[2018, 2020]`:
in 2020 (where Nov 1 is a Sunday) the first rule alone occupies Nov 2, and the
second rule is displaced by forward probing to Nov 3. -/
theorem movable_collision_2020 :
    weekday (daysFromCivil 2020 11 1) = Weekday.Sun ∧
    (calc_calendar [Holiday.MovableYearlyDay 11 1 none none] 2018 2020).map
      (fun c => (is_holiday c (daysFromCivil 2020 11 2),
                 is_holiday c (daysFromCivil 2020 11 3))) = some (true, false) ∧
    (calc_calendar [Holiday.MovableYearlyDay 11 1 none none,
                    Holiday.MovableYearlyDay 11 2 none none] 2018 2020).map
      (fun c => (is_holiday c (daysFromCivil 2020 11 1),
                 is_holiday c (daysFromCivil 2020 11 2),
                 is_holiday c (daysFromCivil 2020 11 3))) = some (false, true, true) := by
  decide

/-- **C4** fails on the code: when Mon Nov 2 through Fri Nov 6 of 2020 are
already holidays, the movable rule for Sunday Nov 1 2020 is probed forward to
Saturday Nov 7 2020, a weekend day, because the probe loop only checks
holiday-set membership. -/
theorem movable_probe_lands_on_weekend :
    weekday (daysFromCivil 2020 11 1) = Weekday.Sun ∧
    weekday (daysFromCivil 2020 11 7) = Weekday.Sat ∧
    (calc_calendar [Holiday.YearlyDay 11 2 none none, Holiday.YearlyDay 11 3 none none,
                    Holiday.YearlyDay 11 4 none none, Holiday.YearlyDay 11 5 none none,
                    Holiday.YearlyDay 11 6 none none, Holiday.MovableYearlyDay 11 1 none none]
        2020 2020).map
      (fun c => is_holiday c (daysFromCivil 2020 11 7)) = some true := by
  decide

/-! ## Claim theorems: MonthWeekday resolution -/

/-- The weekday scan hits its target within 7 steps in either direction. -/
theorem exists_weekday_match (w : Weekday) (a step : Int) (hstep : step = 1 ∨ step = -1) :
    ∃ k : Nat, k < 7 ∧ decide (weekday (a + step * k) = w) = true := by
  have hcw := weekdayCode_bounds w
  rcases hstep with rfl | rfl
  · refine ⟨((weekdayCode w - (a + 3)) % 7).toNat, by omega, ?_⟩
    simp only [decide_eq_true_eq]
    exact weekday_eq_iff.mpr (by omega)
  · refine ⟨(((a + 3) - weekdayCode w) % 7).toNat, by omega, ?_⟩
    simp only [decide_eq_true_eq]
    exact weekday_eq_iff.mpr (by omega)

/-- A one-year build range iterates exactly that year. -/
theorem yearList_self (y : Int) : yearList y y = [y] := by
  simp [yearList, show (y + 1 - y).toNat = 1 by omega, show List.range 1 = [0] from rfl]

/-- **C5.** A MonthWeekday rule anchors at day 1/8/15/22 or the month's last
day and scans one day at a time (forward, backward for `Last`) to the nearest
matching weekday; concretely, the first Monday of Nov 2019 is Nov 4 and the
last Friday of Nov 2019 is Nov 29. -/
theorem month_weekday_spec (y m : Int) (w : Weekday) (nth : NthWeekday) (a : Int)
    (ha : fromYmdOpt y m (nthAnchorDay nth y m) = some a) :
    (∃ k : Nat, k < 7 ∧
      calc_calendar [Holiday.MonthWeekday m w nth none none] y y =
        some (Calendar.mk {a + nthStep nth * k} []) ∧
      weekday (a + nthStep nth * k) = w ∧
      ∀ j : Nat, j < k → weekday (a + nthStep nth * j) ≠ w) ∧
    nthAnchorDay NthWeekday.First 2019 11 = 1 ∧
    nthAnchorDay NthWeekday.Last 2019 11 = 30 ∧
    (calc_calendar [Holiday.MonthWeekday 11 Weekday.Mon NthWeekday.First none none]
        2019 2019).map
      (fun c => (c.holidays.card, is_holiday c (daysFromCivil 2019 11 4))) =
      some (1, true) ∧
    (calc_calendar [Holiday.MonthWeekday 11 Weekday.Fri NthWeekday.Last none none]
        2019 2019).map
      (fun c => (c.holidays.card, is_holiday c (daysFromCivil 2019 11 29))) =
      some (1, true) := by
  refine ⟨?_, by decide, by decide, by decide, by decide⟩
  have hstep : nthStep nth = 1 ∨ nthStep nth = -1 := by cases nth <;> simp [nthStep]
  obtain ⟨k, hk7, hstop, hmin, heq⟩ :=
    searchAux_spec (fun t => decide (weekday t = w)) (nthStep nth) 7 a
      (exists_weekday_match w a (nthStep nth) hstep)
  refine ⟨k, hk7, ?_, of_decide_eq_true hstop, fun j hj => of_decide_eq_false (hmin j hj)⟩
  show calcCalendarAux y y [Holiday.MonthWeekday m w nth none none] ⟨∅, []⟩ = _
  simp [calcCalendarAux, applyRule, calc_first_and_last, yearList_self,
        monthWeekdayFold, ha, heq]

/-- Witness for C5 at the first Monday of November 2019. -/
theorem month_weekday_spec_witness :
    fromYmdOpt 2019 11 (nthAnchorDay NthWeekday.First 2019 11) =
      some (daysFromCivil 2019 11 1) ∧
    ((∃ k : Nat, k < 7 ∧
      calc_calendar [Holiday.MonthWeekday 11 Weekday.Mon NthWeekday.First none none]
          2019 2019 =
        some (Calendar.mk {daysFromCivil 2019 11 1 + nthStep NthWeekday.First * k} []) ∧
      weekday (daysFromCivil 2019 11 1 + nthStep NthWeekday.First * k) = Weekday.Mon ∧
      ∀ j : Nat, j < k →
        weekday (daysFromCivil 2019 11 1 + nthStep NthWeekday.First * j) ≠ Weekday.Mon) ∧
    nthAnchorDay NthWeekday.First 2019 11 = 1 ∧
    nthAnchorDay NthWeekday.Last 2019 11 = 30 ∧
    (calc_calendar [Holiday.MonthWeekday 11 Weekday.Mon NthWeekday.First none none]
        2019 2019).map
      (fun c => (c.holidays.card, is_holiday c (daysFromCivil 2019 11 4))) =
      some (1, true) ∧
    (calc_calendar [Holiday.MonthWeekday 11 Weekday.Fri NthWeekday.Last none none]
        2019 2019).map
      (fun c => (c.holidays.card, is_holiday c (daysFromCivil 2019 11 29))) =
      some (1, true)) :=
  ⟨by decide,
   month_weekday_spec 2019 11 Weekday.Mon NthWeekday.First
     (daysFromCivil 2019 11 1) (by decide)⟩

/-! ## Claim theorems: build failure on invalid dates -/

/-- An invalid date in the iterated years makes the `YearlyDay` loop fail. -/
theorem yearlyFold_none (month day : Int) :
    ∀ (ys : List Int) (hs : Finset Int), (∃ y ∈ ys, fromYmdOpt y month day = none) →
      yearlyFold month day ys hs = none := by
  intro ys
  induction ys with
  | nil =>
    rintro hs ⟨y, hy, _⟩
    cases hy
  | cons y0 ys ih =>
    rintro hs ⟨y, hy, hbad⟩
    rcases List.mem_cons.mp hy with rfl | hy2
    · simp [yearlyFold, hbad]
    · cases h0 : fromYmdOpt y0 month day with
      | none => simp [yearlyFold, h0]
      | some z =>
        simp only [yearlyFold, h0]
        exact ih _ ⟨y, hy2, hbad⟩

/-- **C6.** If a `YearlyDay` rule in the list would construct an invalid date
for some year of its clamped range, the whole build fails and surfaces the
failure (`none`) instead of returning a calendar missing the entry. -/
theorem calc_calendar_invalid_date (rules : List Holiday) (month day : Int)
    (first last : Option Int) (start end_ y : Int)
    (hmem : Holiday.YearlyDay month day first last ∈ rules)
    (hy1 : (calc_first_and_last start end_ first last).1 ≤ y)
    (hy2 : y ≤ (calc_first_and_last start end_ first last).2)
    (hbad : fromYmdOpt y month day = none) :
    calc_calendar rules start end_ = none := by
  suffices haux : ∀ (rs : List Holiday) (cal : Calendar),
      Holiday.YearlyDay month day first last ∈ rs →
      calcCalendarAux start end_ rs cal = none from haux rules _ hmem
  intro rs
  induction rs with
  | nil =>
    intro cal h
    cases h
  | cons r rs ih =>
    intro cal hm
    rcases List.mem_cons.mp hm with rfl | hm2
    · have happ : applyRule start end_ cal (Holiday.YearlyDay month day first last) = none := by
        simp only [applyRule]
        rw [yearlyFold_none month day _ _ ⟨y, mem_yearList.mpr ⟨hy1, hy2⟩, hbad⟩]
        rfl
      simp [calcCalendarAux, happ]
    · cases happ : applyRule start end_ cal r with
      | none => simp [calcCalendarAux, happ]
      | some cal2 =>
        simp only [calcCalendarAux, happ]
        exact ih cal2 hm2

/-- Witness for C6: the rule `YearlyDay {month: 2, day: 30}` fails the build
over `[2019, 2019]`. -/
theorem calc_calendar_invalid_date_witness :
    Holiday.YearlyDay 2 30 none none ∈ [Holiday.YearlyDay 2 30 none none] ∧
    (calc_first_and_last 2019 2019 none none).1 ≤ 2019 ∧
    (2019 : Int) ≤ (calc_first_and_last 2019 2019 none none).2 ∧
    fromYmdOpt 2019 2 30 = none ∧
    calc_calendar [Holiday.YearlyDay 2 30 none none] 2019 2019 = none :=
  ⟨by decide, by decide, by decide, by decide,
   calc_calendar_invalid_date [Holiday.YearlyDay 2 30 none none] 2 30 none none
     2019 2019 2019 (by decide) (by decide) (by decide) (by decide)⟩

/-! ## Claim theorems: reversed build range -/

/-- The weekend days contributed by a rule list, in order. -/
def weekendOf (rules : List Holiday) : List Weekday :=
  rules.filterMap (fun r => match r with
    | Holiday.WeekDay w => some w
    | _ => none)

/-- Counterexample to **C7** as stated: with `start > end` the builder still
produces a `Calendar` value instead of reporting a usage error. -/
theorem calc_calendar_reversed_range_counterexample :
    calc_calendar [] 2020 2019 = some (Calendar.mk ∅ []) := rfl

/-- **C7**, amended: the builder performs no `start ≤ end` check; with
`start > end` it returns a calendar with an empty holiday set in which only
`WeekDay` rules have any effect. -/
theorem calc_calendar_reversed_range (rules : List Holiday) (start end_ : Int)
    (h : end_ < start) :
    calc_calendar rules start end_ = some (Calendar.mk ∅ (weekendOf rules)) := by
  suffices haux : ∀ (rs : List Holiday) (cal : Calendar),
      calcCalendarAux start end_ rs cal =
        some (Calendar.mk cal.holidays (cal.weekdays ++ weekendOf rs)) by
    simpa [weekendOf] using haux rules ⟨∅, []⟩
  intro rs
  induction rs with
  | nil =>
    intro cal
    simp [calcCalendarAux, weekendOf]
  | cons r rs ih =>
    intro cal
    cases r with
    | WeekDay w =>
      simp only [calcCalendarAux, applyRule]
      rw [ih]
      simp [weekendOf, List.filterMap_cons]
    | YearlyDay month day first last =>
      have hfl := calc_first_and_last_bounds start end_ first last
      have happ : applyRule start end_ cal (Holiday.YearlyDay month day first last) = some cal := by
        simp [applyRule,
          yearList_nil (show (calc_first_and_last start end_ first last).2 <
            (calc_first_and_last start end_ first last).1 by omega),
          yearlyFold]
      simp only [calcCalendarAux, happ]
      rw [ih]
      simp [weekendOf, List.filterMap_cons]
    | MovableYearlyDay month day first last =>
      have hfl := calc_first_and_last_bounds start end_ first last
      have happ : applyRule start end_ cal (Holiday.MovableYearlyDay month day first last) = some cal := by
        simp [applyRule,
          yearList_nil (show (calc_first_and_last start end_ first last).2 <
            (calc_first_and_last start end_ first last).1 by omega),
          movableFold]
      simp only [calcCalendarAux, happ]
      rw [ih]
      simp [weekendOf, List.filterMap_cons]
    | MonthWeekday month w nth first last =>
      have hfl := calc_first_and_last_bounds start end_ first last
      have happ : applyRule start end_ cal (Holiday.MonthWeekday month w nth first last) = some cal := by
        simp [applyRule,
          yearList_nil (show (calc_first_and_last start end_ first last).2 <
            (calc_first_and_last start end_ first last).1 by omega),
          monthWeekdayFold]
      simp only [calcCalendarAux, happ]
      rw [ih]
      simp [weekendOf, List.filterMap_cons]
    | EasterOffset offset =>
      have happ : applyRule start end_ cal (Holiday.EasterOffset offset) = some cal := by
        simp [applyRule, yearList_nil h, easterFold]
      simp only [calcCalendarAux, happ]
      rw [ih]
      simp [weekendOf, List.filterMap_cons]
    | SingularDay date =>
      simp only [calcCalendarAux, applyRule, if_neg (show ¬(dateYear date ≥ start ∧
        dateYear date ≤ end_) by omega)]
      rw [ih]
      simp [weekendOf, List.filterMap_cons]

/-- Witness for the amended C7: a reversed range with a weekend rule and a
(nominally invalid) yearly rule still yields a calendar; the yearly rule is
never evaluated because its clamped range is empty. -/
theorem calc_calendar_reversed_range_witness :
    calc_calendar [Holiday.WeekDay Weekday.Sat, Holiday.YearlyDay 2 30 none none]
      2020 2019 =
      some (Calendar.mk ∅
        (weekendOf [Holiday.WeekDay Weekday.Sat, Holiday.YearlyDay 2 30 none none])) :=
  calc_calendar_reversed_range
    [Holiday.WeekDay Weekday.Sat, Holiday.YearlyDay 2 30 none none] 2020 2019 (by decide)

/-! ## Claim theorems: record store -/

/-- **C8** fails on the code: starting from an empty database, two successive
asset inserts both return id 0 — `insert_asset` never increments
`next_asset_id` and instead increments `next_transaction_id` (twice here) —
while two successive transaction inserts correctly return 0 and 1. -/
theorem insert_asset_ids_not_consecutive :
    (insert_asset (InMemoryDB.mk [] [] 0 0) (Asset.mk none 5)).2 = Except.ok 0 ∧
    (insert_asset (insert_asset (InMemoryDB.mk [] [] 0 0) (Asset.mk none 5)).1
      (Asset.mk none 6)).2 = Except.ok 0 ∧
    (insert_asset (insert_asset (InMemoryDB.mk [] [] 0 0) (Asset.mk none 5)).1
      (Asset.mk none 6)).1.next_asset_id = 0 ∧
    (insert_asset (insert_asset (InMemoryDB.mk [] [] 0 0) (Asset.mk none 5)).1
      (Asset.mk none 6)).1.next_transaction_id = 2 ∧
    (insert_transaction (InMemoryDB.mk [] [] 0 0) (Transaction.mk none 7)).2 =
      Except.ok 0 ∧
    (insert_transaction
      (insert_transaction (InMemoryDB.mk [] [] 0 0) (Transaction.mk none 7)).1
      (Transaction.mk none 8)).2 = Except.ok 1 :=
  ⟨rfl, rfl, rfl, rfl, rfl, rfl⟩

/-- **C9** fails on the code: a single `insert_asset` on the empty database
leaves the transactions map unchanged but increments the transaction id
counter from 0 to 1. -/
theorem insert_asset_bumps_transaction_counter :
    (insert_asset (InMemoryDB.mk [] [] 0 0) (Asset.mk none 5)).1.transactions = [] ∧
    (insert_asset (InMemoryDB.mk [] [] 0 0) (Asset.mk none 5)).1.next_transaction_id = 1 :=
  ⟨rfl, rfl⟩

/-- **C10.** Whenever an update or delete operation returns an error, the
database state returned is exactly the input state: the error checks precede
any mutation. -/
theorem error_leaves_db_unchanged (db : InMemoryDB) (a : Asset) (t : Transaction)
    (i j : Nat) :
    (∀ e, (update_asset db a).2 = Except.error e → (update_asset db a).1 = db) ∧
    (∀ e, (delete_asset db i).2 = Except.error e → (delete_asset db i).1 = db) ∧
    (∀ e, (update_transaction db t).2 = Except.error e →
      (update_transaction db t).1 = db) ∧
    (∀ e, (delete_transaction db j).2 = Except.error e →
      (delete_transaction db j).1 = db) := by
  refine ⟨?_, ?_, ?_, ?_⟩
  · intro e he
    unfold update_asset at he ⊢
    cases ha : a.id with
    | none => rfl
    | some id =>
      rw [ha] at he
      by_cases hc : mapContains id db.assets
      · simp [hc] at he
      · simp [hc]
  · intro e he
    unfold delete_asset at he ⊢
    by_cases hc : mapContains i db.assets
    · simp [hc] at he
    · simp [hc]
  · intro e he
    unfold update_transaction at he ⊢
    cases ht : t.id with
    | none => rfl
    | some id =>
      rw [ht] at he
      by_cases hc : mapContains id db.transactions
      · simp [hc] at he
      · simp [hc]
  · intro e he
    unfold delete_transaction at he ⊢
    by_cases hc : mapContains j db.transactions
    · simp [hc] at he
    · simp [hc]

/-- Witness for C10: updating an id-less asset on the empty database fails
and returns the database unchanged. -/
theorem error_leaves_db_unchanged_witness :
    (update_asset (InMemoryDB.mk [] [] 0 0) (Asset.mk none 5)).2 =
      Except.error (DataError.UpdateFailed
        "asset has no id yet, can\x27t update new value") ∧
    (update_asset (InMemoryDB.mk [] [] 0 0) (Asset.mk none 5)).1 =
      InMemoryDB.mk [] [] 0 0 :=
  ⟨rfl,
   (error_leaves_db_unchanged (InMemoryDB.mk [] [] 0 0) (Asset.mk none 5)
     (Transaction.mk none 0) 0 0).1
     (DataError.UpdateFailed "asset has no id yet, can\x27t update new value") rfl⟩

end Finql
